import Mathlib

/-!
Verification of the DecTek price feed service (Go) against its
natural-language specification.

The Go code is shallowly embedded: the mutable fields of the
SepoliaPriceFeed struct become a Lean structure that is passed and
returned explicitly, Go maps become functions with the zero value as
default (for onChainPrices) or Option-valued functions (for the bounds
cache), channels become lists of messages, and fallible calls return
Except.  float64 amounts are modelled by their exact rational values
(every float64 is a rational); the Go conversion int64(f) is modelled
as truncation toward zero of the exact rational, and a multiplication
of an int64 by the literals 1.2, 0.8, 1.02, 0.98 followed by int64
truncation is modelled as exact integer multiplication by 120, 80, 102
or 98 followed by truncated division by 100 (for the magnitudes the
service handles the double rounding of these products never crosses an
integer boundary, so the truncated results agree).  The external
collaborators (the chainlink pricer and the contract Set call) are
passed in as function parameters, mirroring the interfaces
domain.ChainlinkPricer and chains.ContractInterface, and the embedded
functions additionally return the list of oracle or contract calls
they issue, so that claims about call volume are statable.
-/

namespace DecTek

/-- domain.Price: a price observation {Symbol, Amount, Type}. -/
structure Price where
  symbol : String
  amount : ℚ
  type : String
deriving DecidableEq, Repr

/-- contract.ContractPriceChanged: a PriceChanged event (symbol, scaled
price, timestamp); the Raw log field carries no data we model. -/
structure PriceChangedEvent where
  symbol : String
  newPrice : ℤ
  timestamp : ℕ
deriving DecidableEq, Repr

/-- chains.boundsCacheEntry: cached chainlink bounds with the time they
were computed. -/
structure BoundsCacheEntry where
  up : ℤ
  down : ℤ
  timestamp : ℕ
deriving DecidableEq, Repr

/-- The mutable state of chains.SepoliaPriceFeed: the local mirror of
the on-chain prices (a Go map whose zero value on a missing key is 0)
and the bounds cache (missing key modelled as none).  The immutable
fields (client, auth, contract address) carry no state we model. -/
structure SepoliaPriceFeed where
  onChainPrices : String → ℚ
  boundCache : String → Option BoundsCacheEntry

/-- strings.ToLower restricted to the ASCII case mapping used by the
symbols of this service. -/
def lowerString (s : String) : String :=
  ⟨s.data.map Char.toLower⟩

/-- Models the Go conversion int64(f * 100) on the exact rational value
of the float64 f: the value of f * 100 is (num * 100) / den, truncated
toward zero. -/
def scaleAmount (q : ℚ) : ℤ :=
  (q.num * 100).tdiv (q.den : ℤ)

/-- The bounds cache TTL: 2 * time.Minute, in seconds. -/
def boundsTTL : ℕ := 120

/-- chains.getChainlinkBounds: if a cache entry for the symbol exists
and time.Since(entry.timestamp) < 2 minutes, return the cached (up,
down); otherwise compute up = int64(float64(chainlinkPrice*100) * 1.2),
down = int64(float64(chainlinkPrice*100) * 0.8) and store them with the
current timestamp.  Returns the pair (up, down) and the resulting
state. -/
def getChainlinkBounds (s : SepoliaPriceFeed) (now : ℕ) (symbol : String)
    (chainlinkPrice : ℤ) : (ℤ × ℤ) × SepoliaPriceFeed :=
  let cached : Option (ℤ × ℤ) :=
    match s.boundCache symbol with
    | some entry =>
        if now - entry.timestamp < boundsTTL then some (entry.up, entry.down)
        else none
    | none => none
  match cached with
  | some b => (b, s)
  | none =>
      let chainlinkScaled := chainlinkPrice * 100
      let up := (chainlinkScaled * 120).tdiv 100
      let down := (chainlinkScaled * 80).tdiv 100
      ((up, down),
       { s with boundCache :=
          Function.update s.boundCache symbol (some ⟨up, down, now⟩) })

/-- chains.validatePrice, instrumented: the chainlink pricer is passed
in as a function (mirroring domain.ChainlinkPricer), and the returned
list records every GetChainlinkPrice call the function issues.  The
source calls the pricer unconditionally at the top of the body, reads
contractPrice := int64(onChainPrices[symbol] * 100), fetches the
bounds, and then decides as in the source. -/
def validatePriceT (pricer : String → Except String ℤ)
    (s : SepoliaPriceFeed) (now : ℕ) (symbol : String) (newPrice : ℤ) :
    (Except String Bool × SepoliaPriceFeed) × List String :=
  match pricer symbol with
  | .error e =>
      ((.error ("chainlink fetch failed for " ++ symbol ++ ": " ++ e), s),
       [symbol])
  | .ok chainlinkPrice =>
      let contractPrice : ℤ := scaleAmount (s.onChainPrices symbol)
      let bounds := getChainlinkBounds s now symbol chainlinkPrice
      let chainUp := bounds.1.1
      let chainDown := bounds.1.2
      let s' := bounds.2
      let withinChainlinkBounds : Bool :=
        decide (chainDown ≤ newPrice) && decide (newPrice ≤ chainUp)
      if contractPrice = 0 then
        ((.ok withinChainlinkBounds, s'), [symbol])
      else
        let contractUp := (contractPrice * 102).tdiv 100
        let contractDown := (contractPrice * 98).tdiv 100
        let withinContractBounds : Bool :=
          decide (contractDown ≤ newPrice) && decide (newPrice ≤ contractUp)
        if withinContractBounds then ((.ok false, s'), [symbol])
        else ((.ok withinChainlinkBounds, s'), [symbol])

/-- chains.validatePrice without the instrumentation: the (result,
state) pair. -/
def validatePrice (pricer : String → Except String ℤ)
    (s : SepoliaPriceFeed) (now : ℕ) (symbol : String) (newPrice : ℤ) :
    Except String Bool × SepoliaPriceFeed :=
  (validatePriceT pricer s now symbol newPrice).1

/-- chains.writeToChain: computes newPrice := int64(price * 100),
submits contract.Set(symbol, newPrice) (passed in as the function
set, mirroring ContractInterface.Set), and only on success updates
onChainPrices[symbol] to the decimal price.  On failure the wrapped
error is returned and the state is unchanged. -/
def writeToChain (set : String → ℤ → Except String Unit)
    (s : SepoliaPriceFeed) (symbol : String) (price : ℚ) :
    Except String Unit × SepoliaPriceFeed :=
  let newPrice := scaleAmount price
  match set symbol newPrice with
  | .error e =>
      (.error ("failed to write " ++ symbol ++ " price: " ++ e), s)
  | .ok _ =>
      (.ok (),
       { s with onChainPrices := Function.update s.onChainPrices symbol price })

/-- One event iteration of chains.ListenOnChainPriceUpdate: the scaled
event price is integer-divided by 100 (big.Int Div is Euclidean
division, which for the positive divisor 100 is floor division), the
local price map is updated with that quotient, and the same amount is
emitted with currency type USD. -/
def listenStep (s : SepoliaPriceFeed) (ev : PriceChangedEvent) :
    SepoliaPriceFeed × Price :=
  let priceFloat : ℚ := ((ev.newPrice.fdiv 100 : ℤ) : ℚ)
  ({ s with onChainPrices :=
      Function.update s.onChainPrices ev.symbol priceFloat },
   { symbol := ev.symbol, amount := priceFloat, type := "USD" })

/-- One message the listener goroutine can receive in its select: a
value on sub.Err(), a decoded PriceChanged event on the logs channel,
or the context-done signal. -/
inductive ListenerInput where
  | subError : String → ListenerInput
  | priceEvent : PriceChangedEvent → ListenerInput
  | cancelled : ListenerInput
deriving DecidableEq, Repr

/-- The observable outcome of a run of ListenOnChainPriceUpdate:
the final state, the prices emitted on the output channel, how many
times the output channel was closed, whether Unsubscribe ran, and
whether the function (and its goroutine, if started) has returned. -/
structure ListenerResult where
  state : SepoliaPriceFeed
  emitted : List Price
  closeCount : ℕ
  unsubscribed : Bool
  exited : Bool

/-- The listener goroutine loop: events are applied in receipt order;
a subscription error or the context-done signal makes the loop return,
at which point the deferred sub.Unsubscribe() and close(out) both run.
An exhausted input list models the goroutine still blocked in its
select: nothing has been closed yet and the loop has not exited. -/
def listenLoop (s : SepoliaPriceFeed) : List ListenerInput → ListenerResult
  | [] => ⟨s, [], 0, false, false⟩
  | .subError _ :: _ => ⟨s, [], 1, true, true⟩
  | .cancelled :: _ => ⟨s, [], 1, true, true⟩
  | .priceEvent ev :: rest =>
      let step := listenStep s ev
      let r := listenLoop step.1 rest
      { r with emitted := step.2 :: r.emitted }

/-- chains.ListenOnChainPriceUpdate: if the initial WatchPriceChanged
call fails (subOk = false) the function logs and returns at once - the
goroutine that owns the deferred Unsubscribe and close(out) is never
started, so nothing is closed or unsubscribed.  Otherwise the
goroutine runs the loop over the inputs it receives. -/
def listenOnChainPriceUpdate (s : SepoliaPriceFeed) (subOk : Bool)
    (inputs : List ListenerInput) : ListenerResult :=
  if subOk then listenLoop s inputs
  else ⟨s, [], 0, false, true⟩

/-- strings.EqualFold(t, "USD") for the ASCII strings this service
uses: both sides lowercased and compared. -/
def isUSDType (t : String) : Bool :=
  lowerString t = lowerString "USD"

/-- Insertion into the usdPrices Go map: an existing key is
overwritten in place, a new key is added. -/
def upsert (m : List (String × ℚ)) (k : String) (v : ℚ) :
    List (String × ℚ) :=
  if m.any (fun p => p.1 = k) then
    m.map (fun p => if p.1 = k then (k, v) else p)
  else m ++ [(k, v)]

/-- Lookup in an association list representing a Go map. -/
def lookupAmount : List (String × ℚ) → String → Option ℚ
  | [], _ => none
  | p :: rest, k => if p.1 = k then some p.2 else lookupAmount rest k

/-- The grouping loop at the top of chains.WritePricesToChain: build
usdPrices by inserting, in batch order, every observation whose Type
equals USD case-insensitively, keyed by the lowercased symbol. -/
def groupUSD (batch : List Price) : List (String × ℚ) :=
  batch.foldl
    (fun m p => if isUSDType p.type then upsert m (lowerString p.symbol) p.amount else m)
    []

/-- The validation loop of chains.WritePricesToChain: for each entry
of usdPrices compute newPrice := int64(amount * 100) and run
validatePrice; on error log and continue, on true collect the price
with Type USD, on false log and continue.  Returns the resulting
state, the collected valid prices in iteration order, and the list of
symbols that were passed to validatePrice. -/
def validateCollect (pricer : String → Except String ℤ)
    (s : SepoliaPriceFeed) (now : ℕ) :
    List (String × ℚ) → SepoliaPriceFeed × List Price × List String
  | [] => (s, [], [])
  | (symbol, amount) :: rest =>
      let newPrice := scaleAmount amount
      let v := validatePrice pricer s now symbol newPrice
      let r := validateCollect pricer v.2 now rest
      match v.1 with
      | .ok true =>
          (r.1, ⟨symbol, amount, "USD"⟩ :: r.2.1, symbol :: r.2.2)
      | .ok false => (r.1, r.2.1, symbol :: r.2.2)
      | .error _ => (r.1, r.2.1, symbol :: r.2.2)

/-- The write loop of chains.WritePricesToChain: each valid price is
written with writeToChain; a failure is logged and the loop continues.
The returned list records every contract Set submission (symbol and
scaled price) the loop issued. -/
def writeLoop (set : String → ℤ → Except String Unit)
    (s : SepoliaPriceFeed) : List Price → SepoliaPriceFeed × List (String × ℤ)
  | [] => (s, [])
  | p :: rest =>
      let w := writeToChain set s p.symbol p.amount
      let r := writeLoop set w.2 rest
      (r.1, (p.symbol, scaleAmount p.amount) :: r.2)

/-- The outcome of processing one batch in chains.WritePricesToChain. -/
structure BatchResult where
  state : SepoliaPriceFeed
  accepted : List Price
  validated : List String
  submitted : List (String × ℤ)

/-- The body of the prices case of chains.WritePricesToChain for one
incoming batch: group and filter to USD, validate each grouped entry,
then write every accepted price. -/
def processBatch (pricer : String → Except String ℤ)
    (set : String → ℤ → Except String Unit)
    (s : SepoliaPriceFeed) (now : ℕ) (batch : List Price) : BatchResult :=
  let grouped := groupUSD batch
  let v := validateCollect pricer s now grouped
  let w := writeLoop set v.1 v.2.1
  ⟨w.1, v.2.1, v.2.2, w.2⟩

/-- chains.WritePricesToChain over the sequence of batches received on
the input channel before the context is cancelled: each batch is
processed in full and the loop continues with the next one.  Returns
the final state and the concatenated submission log. -/
def writePricesToChain (pricer : String → Except String ℤ)
    (set : String → ℤ → Except String Unit)
    (s : SepoliaPriceFeed) (now : ℕ) :
    List (List Price) → SepoliaPriceFeed × List (String × ℤ)
  | [] => (s, [])
  | batch :: rest =>
      let b := processBatch pricer set s now batch
      let r := writePricesToChain pricer set b.state now rest
      (r.1, b.submitted ++ r.2)

/-- The decoded body of a POST to /set-price in main.go. -/
structure PriceUpdate where
  symbol : String
  amount : ℚ
  type : String
deriving DecidableEq, Repr

/-- The fixed symbol allow-list of main.setPriceHandler. -/
def validSymbols : List String := ["bitcoin", "ethereum"]

/-- main.setPriceHandler on a POST request whose body decoded to the
given update (CORS, OPTIONS, non-POST methods and JSON decode failures
are handled before this logic and do not touch the cache): empty
symbol, non-positive amount or empty type give 400; a type other than
USD or EUR gives 400; a symbol whose lowercasing is not on the
allow-list gives 404; otherwise the amount is stored in the nested
apiPrices map under the symbol and type exactly as sent, and the
status is 200. -/
def setPriceHandler (prices : String → String → Option ℚ)
    (u : PriceUpdate) : ℕ × (String → String → Option ℚ) :=
  if u.symbol = "" ∨ u.amount ≤ 0 ∨ u.type = "" then (400, prices)
  else if u.type ≠ "USD" ∧ u.type ≠ "EUR" then (400, prices)
  else if ¬ (validSymbols.contains (lowerString u.symbol)) then (404, prices)
  else
    (200, fun sym ty =>
      if sym = u.symbol then
        (if ty = u.type then some u.amount else prices sym ty)
      else prices sym ty)

/-! Concrete fixtures used by witnesses and counterexamples. -/

/-- A feed state whose only prior on-chain price is bitcoin at 30000.00. -/
def stBTC : SepoliaPriceFeed :=
  ⟨fun sym => if sym = "bitcoin" then 30000 else 0, fun _ => none⟩

/-- A feed state with no prior on-chain price for any symbol. -/
def stNoPrior : SepoliaPriceFeed := ⟨fun _ => 0, fun _ => none⟩

/-- A pricer that answers every symbol with the given reference price. -/
def constPricer (v : ℤ) : String → Except String ℤ := fun _ => .ok v

/-- The exact rational 10000.012: a decimal price whose scaling
int64(amount * 100) is 1000001, an integer not divisible by 50, so the
two-percent contract bounds are not integers. -/
def amtFrac : ℚ := ⟨2500003, 250, by decide, by decide⟩

/-- A feed state whose prior bitcoin price scales to 1000001. -/
def stFrac : SepoliaPriceFeed :=
  ⟨fun sym => if sym = "bitcoin" then amtFrac else 0, fun _ => none⟩

/-- A contract Set stub that always succeeds. -/
def setOkAll : String → ℤ → Except String Unit := fun _ _ => .ok ()

/-- A contract Set stub that always fails. -/
def setFailAll : String → ℤ → Except String Unit := fun _ _ => .error "rpc"

/-- (a * 100).tdiv 100 = a: scaling by 100 then truncated division by
100 is the identity on integers. -/
theorem tdiv_hundred_mul (a : ℤ) : (a * 100).tdiv 100 = a :=
  Int.mul_tdiv_cancel a (by norm_num)

/-- The bounds the code computes from a fresh chainlink reading are
exactly the spec formulas reference*100*1.2 = 120*reference and
reference*100*0.8 = 80*reference (both products are integers, so the
truncation is exact). -/
theorem chainlinkBounds_exact (ref : ℤ) :
    (ref * 100 * 120).tdiv 100 = ref * 120 ∧
    (ref * 100 * 80).tdiv 100 = ref * 80 := by
  constructor
  · have h : ref * 100 * 120 = ref * 120 * 100 := by ring
    rw [h, tdiv_hundred_mul]
  · have h : ref * 100 * 80 = ref * 80 * 100 := by ring
    rw [h, tdiv_hundred_mul]

/-- C2: with no prior on-chain price (the scaled contract price is 0)
and no cached bounds, validatePrice accepts exactly when the candidate
lies within the inclusive reference bounds
[reference*100*0.8, reference*100*1.2] = [80*reference, 120*reference]
computed from the chainlink reading. -/
theorem claim2_no_prior_accept_iff_reference_bounds
    (pricer : String → Except String ℤ) (s : SepoliaPriceFeed) (now : ℕ)
    (symbol : String) (newPrice ref : ℤ)
    (hp : pricer symbol = .ok ref)
    (hc : s.boundCache symbol = none)
    (h0 : scaleAmount (s.onChainPrices symbol) = 0) :
    (validatePrice pricer s now symbol newPrice).1 =
      .ok (decide (ref * 80 ≤ newPrice ∧ newPrice ≤ ref * 120)) := by
  unfold validatePrice validatePriceT getChainlinkBounds
  rw [hp]
  simp only [hc, h0, if_true]
  rw [(chainlinkBounds_exact ref).1, (chainlinkBounds_exact ref).2]
  rw [Bool.decide_and]

/-- C2 witness: with no prior price and reference 30000, the accepted
range is [2400000, 3600000]: 2500000 is accepted, 1000000 rejected,
and both endpoints are accepted. -/
theorem claim2_witness :
    (validatePrice (constPricer 30000) stNoPrior 0 "bitcoin" 2500000).1 = .ok true ∧
    (validatePrice (constPricer 30000) stNoPrior 0 "bitcoin" 1000000).1 = .ok false ∧
    (validatePrice (constPricer 30000) stNoPrior 0 "bitcoin" 2400000).1 = .ok true ∧
    (validatePrice (constPricer 30000) stNoPrior 0 "bitcoin" 3600000).1 = .ok true := by
  refine ⟨?_, ?_, ?_, ?_⟩ <;>
    rw [claim2_no_prior_accept_iff_reference_bounds (constPricer 30000)
      stNoPrior 0 "bitcoin" _ 30000 rfl rfl (by decide)] <;>
    exact congrArg Except.ok (by decide)

/-- C1 counterexample: with a prior bitcoin price of 10000.012
(contract price 1000001 scaled), reference 10000 and candidate 980000,
the candidate is strictly below the exact lower contract bound
1000001*0.98 = 980000.98 (stated here multiplied by 100), hence
outside the inclusive contract bounds as the claim states them, and it
lies within the inclusive reference bounds [800000, 1200000]; the
claim therefore demands acceptance, but validatePrice rejects, because
the code compares against the truncated bound
int64(float64(1000001)*0.98) = 980000. -/
theorem claim1_counterexample :
    scaleAmount (stFrac.onChainPrices "bitcoin") = 1000001 ∧
    ¬ (1000001 * 98 ≤ 980000 * 100 ∧ 980000 * 100 ≤ 1000001 * 102) ∧
    ((10000 : ℤ) * 80 ≤ 980000 ∧ (980000 : ℤ) ≤ 10000 * 120) ∧
    (validatePrice (constPricer 10000) stFrac 0 "bitcoin" 980000).1 =
      .ok false :=
  ⟨by decide, by decide, by decide, rfl⟩

/-- C1 amended: with a prior on-chain price (nonzero scaled contract
price) and no cached bounds, validatePrice rejects exactly when the
candidate lies within the inclusive truncated contract bounds
[(contractPrice*98).tdiv 100, (contractPrice*102).tdiv 100] - the
integer bounds the code computes for contractPrice*0.98 and
contractPrice*1.02 - and outside them accepts exactly when the
candidate lies within the inclusive reference bounds
[80*reference, 120*reference]. -/
theorem claim1_prior_price_contract_and_reference_bounds
    (pricer : String → Except String ℤ) (s : SepoliaPriceFeed) (now : ℕ)
    (symbol : String) (newPrice ref : ℤ)
    (hp : pricer symbol = .ok ref)
    (hc : s.boundCache symbol = none)
    (hcp : scaleAmount (s.onChainPrices symbol) ≠ 0) :
    (validatePrice pricer s now symbol newPrice).1 =
      .ok (if (scaleAmount (s.onChainPrices symbol) * 98).tdiv 100 ≤ newPrice ∧
             newPrice ≤ (scaleAmount (s.onChainPrices symbol) * 102).tdiv 100
           then false
           else decide (ref * 80 ≤ newPrice ∧ newPrice ≤ ref * 120)) := by
  unfold validatePrice validatePriceT getChainlinkBounds
  rw [hp]
  simp only [hc, hcp, if_false]
  rw [(chainlinkBounds_exact ref).1, (chainlinkBounds_exact ref).2]
  rw [Bool.decide_and]
  by_cases hin : (scaleAmount (s.onChainPrices symbol) * 98).tdiv 100 ≤ newPrice ∧
      newPrice ≤ (scaleAmount (s.onChainPrices symbol) * 102).tdiv 100
  · simp [hin]
  · simp [hin]

/-- C1 witness: prior bitcoin price 30000.00 (3000000 scaled):
candidate 3050000 (within two percent of the contract price) is
rejected; 3300000 with reference 32000 is accepted; 4000000 with
reference 30400 is rejected. -/
theorem claim1_witness :
    (validatePrice (constPricer 30400) stBTC 0 "bitcoin" 3050000).1 = .ok false ∧
    (validatePrice (constPricer 32000) stBTC 0 "bitcoin" 3300000).1 = .ok true ∧
    (validatePrice (constPricer 30400) stBTC 0 "bitcoin" 4000000).1 = .ok false := by
  refine ⟨?_, ?_, ?_⟩
  · rw [claim1_prior_price_contract_and_reference_bounds (constPricer 30400)
      stBTC 0 "bitcoin" 3050000 30400 rfl rfl (by decide)]
    exact congrArg Except.ok (by decide)
  · rw [claim1_prior_price_contract_and_reference_bounds (constPricer 32000)
      stBTC 0 "bitcoin" 3300000 32000 rfl rfl (by decide)]
    exact congrArg Except.ok (by decide)
  · rw [claim1_prior_price_contract_and_reference_bounds (constPricer 30400)
      stBTC 0 "bitcoin" 4000000 30400 rfl rfl (by decide)]
    exact congrArg Except.ok (by decide)

/-- C4: a writeToChain call that returns ok has updated
onChainPrices[symbol] to exactly the written decimal price, and a call
that returns an error has left the whole state unchanged. -/
theorem claim4_write_success_updates_failure_unchanged
    (set : String → ℤ → Except String Unit) (s : SepoliaPriceFeed)
    (symbol : String) (price : ℚ) :
    ((writeToChain set s symbol price).1 = .ok () →
       (writeToChain set s symbol price).2.onChainPrices symbol = price) ∧
    (∀ e, (writeToChain set s symbol price).1 = .error e →
       (writeToChain set s symbol price).2 = s) := by
  unfold writeToChain
  cases h : set symbol (scaleAmount price) <;> simp [h]

/-- C4 witness: a successful write of bitcoin at 31000 stores exactly
31000; a failing write leaves the state as it was. -/
theorem claim4_witness :
    (writeToChain setOkAll stBTC "bitcoin" 31000).2.onChainPrices "bitcoin" = 31000 ∧
    (writeToChain setFailAll stBTC "bitcoin" 31000).2 = stBTC :=
  ⟨(claim4_write_success_updates_failure_unchanged setOkAll stBTC "bitcoin" 31000).1 rfl,
   (claim4_write_success_updates_failure_unchanged setFailAll stBTC "bitcoin" 31000).2
     "failed to write bitcoin price: rpc" rfl⟩

/-- getChainlinkBounds never changes onChainPrices, and the only
bounds cache entry it may change is the one of the given symbol. -/
theorem getChainlinkBounds_frame (s : SepoliaPriceFeed) (now : ℕ)
    (symbol : String) (p : ℤ) :
    (getChainlinkBounds s now symbol p).2.onChainPrices = s.onChainPrices ∧
    ∀ k, k ≠ symbol →
      (getChainlinkBounds s now symbol p).2.boundCache k = s.boundCache k := by
  unfold getChainlinkBounds
  cases hc : s.boundCache symbol with
  | none =>
      refine ⟨rfl, fun k hk => ?_⟩
      exact Function.update_noteq hk _ _
  | some e =>
      by_cases ht : now - e.timestamp < boundsTTL
      · simp [ht]
      · constructor
        · simp [ht]
        · intro k hk
          simp only [ht, if_false]
          exact Function.update_noteq hk _ _

/-- C9: validatePrice never changes onChainPrices, and the only bounds
cache entry it may change is the one of the symbol being validated. -/
theorem claim9_validate_frame
    (pricer : String → Except String ℤ) (s : SepoliaPriceFeed) (now : ℕ)
    (symbol : String) (newPrice : ℤ) :
    (validatePrice pricer s now symbol newPrice).2.onChainPrices = s.onChainPrices ∧
    ∀ k, k ≠ symbol →
      (validatePrice pricer s now symbol newPrice).2.boundCache k = s.boundCache k := by
  unfold validatePrice validatePriceT
  cases hp : pricer symbol with
  | error e => exact ⟨rfl, fun k hk => rfl⟩
  | ok v =>
      have h := getChainlinkBounds_frame s now symbol v
      simp only []
      refine ⟨?_, fun k hk => ?_⟩ <;> split <;>
        first
          | exact h.1
          | exact h.2 k hk
          | (split <;> first | exact h.1 | exact h.2 k hk)

/-- Every call of validatePrice issues exactly one GetChainlinkPrice
call, on every path: the source calls the pricer unconditionally
before it consults the bounds cache. -/
theorem validatePriceT_calls (pricer : String → Except String ℤ)
    (s : SepoliaPriceFeed) (now : ℕ) (symbol : String) (newPrice : ℤ) :
    (validatePriceT pricer s now symbol newPrice).2 = [symbol] := by
  unfold validatePriceT
  cases pricer symbol with
  | error e => rfl
  | ok v =>
      simp only []
      split
      · rfl
      · split <;> rfl

/-- A fresh cache entry short-circuits getChainlinkBounds: the cached
bounds are returned and the state is unchanged. -/
theorem getChainlinkBounds_fresh (s : SepoliaPriceFeed) (now : ℕ)
    (symbol : String) (p : ℤ) (e : BoundsCacheEntry)
    (he : s.boundCache symbol = some e)
    (hfresh : now - e.timestamp < boundsTTL) :
    getChainlinkBounds s now symbol p = ((e.up, e.down), s) := by
  unfold getChainlinkBounds
  simp [he, hfresh]

/-- A stale cache entry is recomputed: getChainlinkBounds returns the
bounds derived from the fresh chainlink reading and stores them with
the current timestamp. -/
theorem getChainlinkBounds_stale (s : SepoliaPriceFeed) (now : ℕ)
    (symbol : String) (p : ℤ) (e : BoundsCacheEntry)
    (he : s.boundCache symbol = some e)
    (hstale : ¬ now - e.timestamp < boundsTTL) :
    getChainlinkBounds s now symbol p =
      (((p * 100 * 120).tdiv 100, (p * 100 * 80).tdiv 100),
       { s with boundCache := Function.update s.boundCache symbol (some ⟨(p * 100 * 120).tdiv 100, (p * 100 * 80).tdiv 100, now⟩) }) := by
  unfold getChainlinkBounds
  simp [he, hstale]

/-- C3 counterexample: a validation of bitcoin at time 100 stores a
bounds cache entry with timestamp 100; a second validation at time 150
is within the TTL window (150 - 100 < 120 seconds), yet it still
issues a GetChainlinkPrice call: its oracle call log is [bitcoin], not
empty, because the source calls the pricer before it looks at the
cache. -/
theorem claim3_counterexample :
    (validatePrice (constPricer 30400) stBTC 100 "bitcoin" 3050000).2.boundCache "bitcoin" =
      some ⟨3648000, 2432000, 100⟩ ∧
    150 - 100 < boundsTTL ∧
    (validatePriceT (constPricer 32000)
        ((validatePrice (constPricer 30400) stBTC 100 "bitcoin" 3050000).2)
        150 "bitcoin" 3300000).2 = ["bitcoin"] ∧
    (["bitcoin"] : List String) ≠ [] :=
  ⟨rfl, by decide, rfl, by decide⟩

/-- C3 amended: every validation issues exactly one reference-oracle
call, whether or not a fresh cache entry exists; what the TTL window
guarantees is that a second validation within it reuses the cached
bounds - its outcome is the same for any two successful oracle
readings and it leaves the state unchanged - while after TTL expiry
the bounds are recomputed from the fresh reading and stored with the
current timestamp. -/
theorem claim3_cache_reuses_bounds_but_oracle_still_called
    (p1 p2 pt : String → Except String ℤ) (s t : SepoliaPriceFeed)
    (now : ℕ) (symbol : String) (np r1 r2 rt : ℤ) (e et : BoundsCacheEntry)
    (h1 : p1 symbol = .ok r1) (h2 : p2 symbol = .ok r2)
    (he : s.boundCache symbol = some e)
    (hfresh : now - e.timestamp < boundsTTL)
    (hpt : pt symbol = .ok rt)
    (het : t.boundCache symbol = some et)
    (hstale : ¬ now - et.timestamp < boundsTTL) :
    (validatePriceT p1 s now symbol np).2 = [symbol] ∧
    validatePrice p1 s now symbol np = validatePrice p2 s now symbol np ∧
    (validatePrice p1 s now symbol np).2 = s ∧
    (validatePriceT pt t now symbol np).2 = [symbol] ∧
    (validatePrice pt t now symbol np).2.boundCache symbol =
      some ⟨(rt * 100 * 120).tdiv 100, (rt * 100 * 80).tdiv 100, now⟩ := by
  refine ⟨validatePriceT_calls p1 s now symbol np, ?_, ?_,
    validatePriceT_calls pt t now symbol np, ?_⟩
  · unfold validatePrice validatePriceT
    rw [h1, h2]
    simp only [getChainlinkBounds_fresh s now symbol r1 e he hfresh,
      getChainlinkBounds_fresh s now symbol r2 e he hfresh]
  · unfold validatePrice validatePriceT
    rw [h1]
    simp only [getChainlinkBounds_fresh s now symbol r1 e he hfresh]
    split
    · rfl
    · split <;> rfl
  · unfold validatePrice validatePriceT
    rw [hpt]
    simp only [getChainlinkBounds_stale t now symbol rt et het hstale]
    split
    · exact Function.update_same _ _ _
    · split <;> exact Function.update_same _ _ _

/-- A state whose bitcoin bounds cache entry was computed at time 100. -/
def stCached : SepoliaPriceFeed :=
  ⟨fun sym => if sym = "bitcoin" then 30000 else 0,
   fun sym => if sym = "bitcoin" then some ⟨3648000, 2432000, 100⟩ else none⟩

/-- A state whose bitcoin bounds cache entry was computed at time 0 and
is stale at time 150. -/
def stStale : SepoliaPriceFeed :=
  ⟨fun sym => if sym = "bitcoin" then 30000 else 0,
   fun sym => if sym = "bitcoin" then some ⟨3648000, 2432000, 0⟩ else none⟩

/-- C3 amended witness: at time 150 a cache entry from time 100 is
fresh (bounds reused, oracle still called once, state unchanged) and a
cache entry from time 0 is stale (bounds recomputed from the fresh
reading 31000 and stored with timestamp 150). -/
theorem claim3_witness :
    (validatePriceT (constPricer 30400) stCached 150 "bitcoin" 3300000).2 = ["bitcoin"] ∧
    validatePrice (constPricer 30400) stCached 150 "bitcoin" 3300000 =
      validatePrice (constPricer 32000) stCached 150 "bitcoin" 3300000 ∧
    (validatePrice (constPricer 30400) stCached 150 "bitcoin" 3300000).2 = stCached ∧
    (validatePriceT (constPricer 31000) stStale 150 "bitcoin" 3300000).2 = ["bitcoin"] ∧
    (validatePrice (constPricer 31000) stStale 150 "bitcoin" 3300000).2.boundCache "bitcoin" =
      some ⟨((31000 : ℤ) * 100 * 120).tdiv 100, ((31000 : ℤ) * 100 * 80).tdiv 100, 150⟩ :=
  claim3_cache_reuses_bounds_but_oracle_still_called
    (constPricer 30400) (constPricer 32000) (constPricer 31000)
    stCached stStale 150 "bitcoin" 3300000 30400 32000 31000
    ⟨3648000, 2432000, 100⟩ ⟨3648000, 2432000, 0⟩
    rfl rfl rfl (by decide) rfl rfl (by decide)

/-- C6 counterexample: a PriceChanged event for bitcoin with scaled
price 3050050 (30500.50) makes the listener store exactly 30500: the
code integer-divides the scaled price by 100 before converting, so the
stored amount is not the decimal price 3050050/100 corresponding to
the scaled price (30500 * 100 is not 3050050) - the cents are lost. -/
theorem claim6_counterexample :
    (listenStep stNoPrior ⟨"bitcoin", 3050050, 0⟩).1.onChainPrices "bitcoin" =
      ((30500 : ℤ) : ℚ) ∧
    (listenStep stNoPrior ⟨"bitcoin", 3050050, 0⟩).2.amount = ((30500 : ℤ) : ℚ) ∧
    (3050050 : ℤ).fdiv 100 = 30500 ∧
    (30500 : ℤ) * 100 ≠ 3050050 := by
  refine ⟨by decide, by decide, by decide, by decide⟩

/-- C6 amended: for every PriceChanged event with symbol s and scaled
price p, the listener updates onChainPrices[s] to the integer quotient
of p by 100 (floor division - fractional cents are discarded) and
emits a price observation with symbol s, that same truncated amount
and currency type USD. -/
theorem claim6_listener_updates_and_emits
    (s : SepoliaPriceFeed) (ev : PriceChangedEvent) :
    (listenStep s ev).1.onChainPrices ev.symbol = ((ev.newPrice.fdiv 100 : ℤ) : ℚ) ∧
    (listenStep s ev).2 =
      ⟨ev.symbol, ((ev.newPrice.fdiv 100 : ℤ) : ℚ), "USD"⟩ := by
  unfold listenStep
  exact ⟨Function.update_same _ _ _, rfl⟩

/-- True when the input stream contains a message (subscription error
or context cancellation) that makes the listener loop return. -/
def hasExitSignal : List ListenerInput → Bool
  | [] => false
  | .subError _ :: _ => true
  | .cancelled :: _ => true
  | .priceEvent _ :: rest => hasExitSignal rest

/-- A run of the listener loop that reaches an exit closes the output
channel exactly once and runs the deferred Unsubscribe. -/
theorem listenLoop_exit (inputs : List ListenerInput) :
    ∀ s : SepoliaPriceFeed, hasExitSignal inputs = true →
      (listenLoop s inputs).closeCount = 1 ∧
      (listenLoop s inputs).unsubscribed = true ∧
      (listenLoop s inputs).exited = true := by
  induction inputs with
  | nil => intro s h; cases h
  | cons i rest ih =>
      intro s h
      cases i with
      | subError e => exact ⟨rfl, rfl, rfl⟩
      | cancelled => exact ⟨rfl, rfl, rfl⟩
      | priceEvent ev => exact ih (listenStep s ev).1 h

/-- C7 counterexample: when the initial WatchPriceChanged subscription
fails, ListenOnChainPriceUpdate returns at once without starting the
goroutine, so on this exit path the output channel is never closed
(close count 0, not 1) and nothing is unsubscribed. -/
theorem claim7_counterexample :
    (listenOnChainPriceUpdate stNoPrior false []).exited = true ∧
    (listenOnChainPriceUpdate stNoPrior false []).closeCount = 0 ∧
    (listenOnChainPriceUpdate stNoPrior false []).unsubscribed = false :=
  ⟨rfl, rfl, rfl⟩

/-- C7 amended: when the initial subscription succeeds, the listener
goroutine closes the output channel exactly once on every exit of its
loop - subscription error or context cancellation - and in both cases
also runs the deferred Unsubscribe; but when the initial subscription
fails, the function returns without closing the output channel and
without unsubscribing. -/
theorem claim7_close_once_per_goroutine_exit
    (s : SepoliaPriceFeed) (inputs : List ListenerInput) :
    (hasExitSignal inputs = true →
       (listenOnChainPriceUpdate s true inputs).closeCount = 1 ∧
       (listenOnChainPriceUpdate s true inputs).unsubscribed = true ∧
       (listenOnChainPriceUpdate s true inputs).exited = true) ∧
    ((listenOnChainPriceUpdate s false inputs).closeCount = 0 ∧
     (listenOnChainPriceUpdate s false inputs).unsubscribed = false) := by
  constructor
  · intro h
    exact listenLoop_exit inputs s h
  · exact ⟨rfl, rfl⟩

/-- C7 amended witness: a run that receives one event and is then
cancelled closes the channel once and unsubscribes; a run whose
subscription failed closes nothing. -/
theorem claim7_witness :
    ((listenOnChainPriceUpdate stNoPrior true
        [.priceEvent ⟨"bitcoin", 3000000, 0⟩, .cancelled]).closeCount = 1 ∧
     (listenOnChainPriceUpdate stNoPrior true
        [.priceEvent ⟨"bitcoin", 3000000, 0⟩, .cancelled]).unsubscribed = true ∧
     (listenOnChainPriceUpdate stNoPrior true
        [.priceEvent ⟨"bitcoin", 3000000, 0⟩, .cancelled]).exited = true) ∧
    ((listenOnChainPriceUpdate stNoPrior false
        [.priceEvent ⟨"bitcoin", 3000000, 0⟩, .cancelled]).closeCount = 0 ∧
     (listenOnChainPriceUpdate stNoPrior false
        [.priceEvent ⟨"bitcoin", 3000000, 0⟩, .cancelled]).unsubscribed = false) :=
  ⟨(claim7_close_once_per_goroutine_exit stNoPrior
      [.priceEvent ⟨"bitcoin", 3000000, 0⟩, .cancelled]).1 rfl,
   (claim7_close_once_per_goroutine_exit stNoPrior
      [.priceEvent ⟨"bitcoin", 3000000, 0⟩, .cancelled]).2⟩

/-- The write loop submits a contract Set call for every price in the
list, whatever the Set oracle answers: a failed write is logged and
skipped, never aborting the loop. -/
theorem writeLoop_submits (set : String → ℤ → Except String Unit) :
    ∀ (ps : List Price) (s : SepoliaPriceFeed),
      (writeLoop set s ps).2 =
        ps.map (fun p => (p.symbol, scaleAmount p.amount)) := by
  intro ps
  induction ps with
  | nil => intro s; rfl
  | cons p rest ih => intro s; simp [writeLoop, ih]

/-- C5: in WritePricesToChain the submission log of a batch is exactly
the accepted (validated) prices of that batch, for every behaviour of
the contract Set call - however many earlier writes fail, every
accepted price is still submitted - and processing then continues with
the next batch from the state the current batch produced. -/
theorem claim5_write_failures_do_not_block
    (pricer : String → Except String ℤ) (set : String → ℤ → Except String Unit)
    (s : SepoliaPriceFeed) (now : ℕ) (batch : List Price)
    (rest : List (List Price)) :
    (processBatch pricer set s now batch).submitted =
      (processBatch pricer set s now batch).accepted.map
        (fun p => (p.symbol, scaleAmount p.amount)) ∧
    (writePricesToChain pricer set s now (batch :: rest)).2 =
      (processBatch pricer set s now batch).submitted ++
        (writePricesToChain pricer set
          (processBatch pricer set s now batch).state now rest).2 :=
  ⟨writeLoop_submits set _ _, rfl⟩

/-- The specification-side description of the grouping: the amount
kept for key k is the amount of the last observation in batch order
whose currency type is USD (case-insensitively) and whose lowercased
symbol is k. -/
def lastUSDAmount (batch : List Price) (k : String) : Option ℚ :=
  ((batch.filter fun p => isUSDType p.type && decide (lowerString p.symbol = k)).getLast?).map
    (fun p => p.amount)

/-- Replacing the value of a key leaves lookups of other keys alone. -/
theorem lookupAmount_replace_ne (k : String) (v : ℚ) (k' : String)
    (hne : k' ≠ k) :
    ∀ m : List (String × ℚ),
      lookupAmount (m.map (fun p => if p.1 = k then (k, v) else p)) k' =
        lookupAmount m k' := by
  intro m
  induction m with
  | nil => rfl
  | cons p rest ih =>
      by_cases hp : p.1 = k
      · have hp' : ¬ p.1 = k' := fun h => hne (h.symm.trans hp)
        have hkk' : ¬ k = k' := fun h => hne h.symm
        rw [List.map_cons, if_pos hp]
        show (if k = k' then some v else _) = _
        rw [if_neg hkk', lookupAmount, if_neg hp']
        exact ih
      · rw [List.map_cons, if_neg hp]
        show (if p.1 = k' then some p.2 else _) = _
        rw [lookupAmount]
        by_cases hk' : p.1 = k'
        · rw [if_pos hk', if_pos hk']
        · rw [if_neg hk', if_neg hk']
          exact ih

/-- Replacing the value of a key that occurs in the list makes its
lookup return the new value. -/
theorem lookupAmount_replace_eq (k : String) (v : ℚ) :
    ∀ m : List (String × ℚ),
      m.any (fun p => p.1 = k) = true →
      lookupAmount (m.map (fun p => if p.1 = k then (k, v) else p)) k =
        some v := by
  intro m
  induction m with
  | nil => intro h; cases h
  | cons p rest ih =>
      intro h
      by_cases hp : p.1 = k
      · rw [List.map_cons, if_pos hp]
        show (if k = k then some v else _) = some v
        rw [if_pos rfl]
      · have h' : rest.any (fun p => p.1 = k) = true := by
          simpa [List.any_cons, hp] using h
        rw [List.map_cons, if_neg hp]
        show (if p.1 = k then some p.2 else _) = some v
        rw [if_neg hp]
        exact ih h'

/-- Appending a binding whose key does not occur: the new key looks up
the new value, other keys are unchanged. -/
theorem lookupAmount_append (k : String) (v : ℚ) :
    ∀ m : List (String × ℚ),
      m.any (fun p => p.1 = k) = false →
      ∀ k', lookupAmount (m ++ [(k, v)]) k' =
        if k' = k then some v else lookupAmount m k' := by
  intro m
  induction m with
  | nil =>
      intro _ k'
      show (if k = k' then some v else none) = if k' = k then some v else none
      by_cases hk : k' = k
      · rw [if_pos hk.symm, if_pos hk]
      · rw [if_neg (fun h => hk h.symm), if_neg hk]
  | cons p rest ih =>
      intro h k'
      have hp : ¬ p.1 = k := by
        intro hval
        simp [List.any_cons, hval] at h
      have h' : rest.any (fun p => p.1 = k) = false := by
        simpa [List.any_cons, hp] using h
      rw [List.cons_append]
      show (if p.1 = k' then some p.2 else lookupAmount (rest ++ [(k, v)]) k') = _
      rw [lookupAmount]
      by_cases hk' : p.1 = k'
      · have hkk : ¬ k' = k := fun hkk => hp (hk'.trans hkk)
        rw [if_pos hk', if_neg hkk, if_pos hk']
      · rw [if_neg hk', if_neg hk', ih h' k']

/-- The Go map insert: the inserted key now looks up the new value and
every other key is unchanged. -/
theorem lookupAmount_upsert (m : List (String × ℚ)) (k : String) (v : ℚ)
    (k' : String) :
    lookupAmount (upsert m k v) k' =
      if k' = k then some v else lookupAmount m k' := by
  unfold upsert
  cases hany : m.any (fun p => p.1 = k) with
  | true =>
      simp only [hany, if_true]
      by_cases hk : k' = k
      · rw [if_pos hk, hk]
        exact lookupAmount_replace_eq k v m hany
      · rw [if_neg hk]
        exact lookupAmount_replace_ne k v k' hk m
  | false =>
      simp only [hany, Bool.false_eq_true, if_false]
      exact lookupAmount_append k v m hany k'

/-- Grouping one more observation onto an already grouped batch. -/
theorem groupUSD_append (l : List Price) (p : Price) :
    groupUSD (l ++ [p]) =
      if isUSDType p.type then upsert (groupUSD l) (lowerString p.symbol) p.amount
      else groupUSD l := by
  unfold groupUSD
  rw [List.foldl_append]
  rfl

/-- The last USD amount of a batch extended by one observation. -/
theorem lastUSDAmount_append (l : List Price) (p : Price) (k : String) :
    lastUSDAmount (l ++ [p]) k =
      if isUSDType p.type && decide (lowerString p.symbol = k) then some p.amount
      else lastUSDAmount l k := by
  unfold lastUSDAmount
  rw [List.filter_append]
  by_cases hpred : (isUSDType p.type && decide (lowerString p.symbol = k)) = true
  · rw [if_pos hpred]
    have hf : List.filter
        (fun q => isUSDType q.type && decide (lowerString q.symbol = k)) [p] = [p] := by
      simp [List.filter, hpred]
    rw [hf, List.getLast?_concat]
    rfl
  · rw [if_neg hpred]
    have hf : List.filter
        (fun q => isUSDType q.type && decide (lowerString q.symbol = k)) [p] = [] := by
      simp [List.filter, hpred]
    rw [hf, List.append_nil]

/-- Grouping keeps, for every key, exactly the last USD observation in
batch order. -/
theorem groupUSD_lookup (batch : List Price) (k : String) :
    lookupAmount (groupUSD batch) k = lastUSDAmount batch k := by
  induction batch using List.reverseRecOn with
  | nil => rfl
  | append_singleton l p ih =>
      rw [groupUSD_append, lastUSDAmount_append]
      by_cases hu : isUSDType p.type
      · rw [if_pos hu]
        rw [lookupAmount_upsert]
        by_cases hk : lowerString p.symbol = k
        · rw [if_pos hk.symm]
          simp [hu, hk]
        · rw [if_neg (fun h => hk h.symm), ih]
          simp [hk]
      · have hu' : isUSDType p.type = false := by
          cases hval : isUSDType p.type
          · rfl
          · exact absurd hval hu
        rw [if_neg hu, hu']
        simp [ih]

/-- The validation loop passes to validatePrice exactly the keys of
the grouped map, in order. -/
theorem validateCollect_trace (pricer : String → Except String ℤ) (now : ℕ) :
    ∀ (m : List (String × ℚ)) (s : SepoliaPriceFeed),
      (validateCollect pricer s now m).2.2 = m.map Prod.fst := by
  intro m
  induction m with
  | nil => intro s; rfl
  | cons p rest ih =>
      intro s
      obtain ⟨sym, amt⟩ := p
      unfold validateCollect
      cases h : (validatePrice pricer s now sym (scaleAmount amt)).1 with
      | error e => simp [h, ih]
      | ok b => cases b <;> simp [h, ih]

/-- C8: a batch is reduced to a map keyed by lowercased symbol holding,
for each key, the amount of the last USD observation (case-insensitive
type match) in batch order - non-USD observations and overwritten
duplicates never reach the map - and the validation (and hence write)
phase processes exactly the keys of that map. -/
theorem claim8_group_filters_usd_last_wins (batch : List Price) :
    (∀ k, lookupAmount (groupUSD batch) k = lastUSDAmount batch k) ∧
    ∀ (pricer : String → Except String ℤ)
      (set : String → ℤ → Except String Unit)
      (s : SepoliaPriceFeed) (now : ℕ),
      (processBatch pricer set s now batch).validated =
        (groupUSD batch).map Prod.fst :=
  ⟨fun k => groupUSD_lookup batch k,
   fun pricer _ s now => validateCollect_trace pricer now (groupUSD batch) s⟩

/-- C10: setPriceHandler rejects empty symbol, non-positive amount,
empty type and any type other than USD or EUR with 400, rejects a
symbol whose lowercasing is off the allow-list with 404, both leaving
the cache untouched; and on an allow-listed symbol it answers 200 and
stores the amount under the symbol and type exactly as sent -- the
lowercased form is used only for the allow-list check -- leaving every
other (symbol, type) cell unchanged. -/
theorem claim10_set_price_handler
    (prices : String → String → Option ℚ) (u : PriceUpdate) :
    ((u.symbol = "" ∨ u.amount ≤ 0 ∨ u.type = "" ∨
        (u.type ≠ "USD" ∧ u.type ≠ "EUR")) →
       setPriceHandler prices u = (400, prices)) ∧
    (u.symbol ≠ "" → 0 < u.amount → (u.type = "USD" ∨ u.type = "EUR") →
       validSymbols.contains (lowerString u.symbol) = false →
       setPriceHandler prices u = (404, prices)) ∧
    (u.symbol ≠ "" → 0 < u.amount → (u.type = "USD" ∨ u.type = "EUR") →
       validSymbols.contains (lowerString u.symbol) = true →
       (setPriceHandler prices u).1 = 200 ∧
       (setPriceHandler prices u).2 u.symbol u.type = some u.amount ∧
       (∀ sym ty, sym ≠ u.symbol →
          (setPriceHandler prices u).2 sym ty = prices sym ty) ∧
       (∀ ty, ty ≠ u.type →
          (setPriceHandler prices u).2 u.symbol ty = prices u.symbol ty)) := by
  unfold setPriceHandler
  refine ⟨?_, ?_, ?_⟩
  · intro h
    rcases h with h | h | h | ⟨h1, h2⟩
    · simp [h]
    · simp [h]
    · simp [h]
    · by_cases hfirst : u.symbol = "" ∨ u.amount ≤ 0 ∨ u.type = ""
      · simp [hfirst]
      · simp [hfirst, h1, h2]
  · intro hs ha ht hv
    have hfirst : ¬ (u.symbol = "" ∨ u.amount ≤ 0 ∨ u.type = "") := by
      push_neg
      refine ⟨hs, ha, ?_⟩
      rcases ht with h | h <;> simp [h]
    have hsecond : ¬ (u.type ≠ "USD" ∧ u.type ≠ "EUR") := by
      rcases ht with h | h <;> simp [h]
    have hv' : lowerString u.symbol ∉ validSymbols := by simpa using hv
    simp [hfirst, hsecond, hv']
  · intro hs ha ht hv
    have hfirst : ¬ (u.symbol = "" ∨ u.amount ≤ 0 ∨ u.type = "") := by
      push_neg
      refine ⟨hs, ha, ?_⟩
      rcases ht with h | h <;> simp [h]
    have hsecond : ¬ (u.type ≠ "USD" ∧ u.type ≠ "EUR") := by
      rcases ht with h | h <;> simp [h]
    have hv' : lowerString u.symbol ∈ validSymbols := by simpa using hv
    refine ⟨?_, ?_, ?_, ?_⟩
    · simp [hfirst, hsecond, hv']
    · simp [hfirst, hsecond, hv']
    · intro sym ty hsym
      simp [hfirst, hsecond, hv', hsym]
    · intro ty hty
      simp [hfirst, hsecond, hv', hty]

/-- The empty shared price cache. -/
def emptyPrices : String → String → Option ℚ := fun _ _ => none

/-- C10 witness: the symbol Bitcoin passes the lowercased allow-list
check, is stored under Bitcoin (status 200) leaving the bitcoin cell
untouched; dogecoin gets 404; type GBP, empty symbol and amount 0 get
400, all with the cache unchanged. -/
theorem claim10_witness :
    (setPriceHandler emptyPrices ⟨"Bitcoin", 5, "USD"⟩).1 = 200 ∧
    (setPriceHandler emptyPrices ⟨"Bitcoin", 5, "USD"⟩).2 "Bitcoin" "USD" = some 5 ∧
    (setPriceHandler emptyPrices ⟨"Bitcoin", 5, "USD"⟩).2 "bitcoin" "USD" = none ∧
    setPriceHandler emptyPrices ⟨"dogecoin", 5, "USD"⟩ = (404, emptyPrices) ∧
    setPriceHandler emptyPrices ⟨"bitcoin", 5, "GBP"⟩ = (400, emptyPrices) ∧
    setPriceHandler emptyPrices ⟨"", 5, "USD"⟩ = (400, emptyPrices) ∧
    setPriceHandler emptyPrices ⟨"bitcoin", 0, "USD"⟩ = (400, emptyPrices) := by
  have h200 := (claim10_set_price_handler emptyPrices ⟨"Bitcoin", 5, "USD"⟩).2.2
    (by decide) (by decide) (Or.inl rfl) (by decide)
  refine ⟨h200.1, h200.2.1, ?_, ?_, ?_, ?_, ?_⟩
  · exact (h200.2.2.1 "bitcoin" "USD" (by decide)).trans rfl
  · exact (claim10_set_price_handler emptyPrices ⟨"dogecoin", 5, "USD"⟩).2.1
      (by decide) (by decide) (Or.inl rfl) (by decide)
  · exact (claim10_set_price_handler emptyPrices ⟨"bitcoin", 5, "GBP"⟩).1
      (Or.inr (Or.inr (Or.inr (by decide))))
  · exact (claim10_set_price_handler emptyPrices ⟨"", 5, "USD"⟩).1
      (Or.inl rfl)
  · exact (claim10_set_price_handler emptyPrices ⟨"bitcoin", 0, "USD"⟩).1
      (Or.inr (Or.inl (by decide)))

/-- C9 witness: a concrete validation of bitcoin leaves the price map
and the ethereum bounds cache entry untouched. -/
theorem claim9_witness :
    (validatePrice (constPricer 30400) stBTC 7 "bitcoin" 3300000).2.onChainPrices =
      stBTC.onChainPrices ∧
    (validatePrice (constPricer 30400) stBTC 7 "bitcoin" 3300000).2.boundCache "ethereum" =
      stBTC.boundCache "ethereum" :=
  ⟨(claim9_validate_frame (constPricer 30400) stBTC 7 "bitcoin" 3300000).1,
   (claim9_validate_frame (constPricer 30400) stBTC 7 "bitcoin" 3300000).2
     "ethereum" (by decide)⟩

end DecTek
